import Mathlib

/-!
Verification of the fern ring-buffer core (fern-uring/src/ring_buffer).

The Rust code is shallowly embedded: u32 values are naturals with explicit
reduction modulo 2^32 where the machine arithmetic wraps, the shared entries
slice is a Lean list, and the two-stage reserve/commit protocol is modelled
as pure state-passing functions.  The compare-and-swap in reserve can fail
only when a racing thread moved the private shadow counter between the load
and the CAS; that environment choice is exposed as an explicit boolean
argument casOk.  A slice-index panic in the Rust code is modelled by the
outermost Option of reserve being none.
-/

deriving instance DecidableEq for Except

namespace Fern

/-- Modulus of the 32-bit counters (head, tail and the shadow counters). -/
def U32 : Nat := 4294967296

/-- Wrapping 32-bit subtraction, u32 wrapping_sub for arguments below U32. -/
def wsub (a b : Nat) : Nat := (a + (U32 - b)) % U32

/-- Errors of the ring buffer, from ring_buffer/mod.rs (RingBufferError). -/
inductive RingBufferError where
  | entriesSliceTooLong
  | lengthNotPowerOfTwo
  | invalidMaskValue
  | commitOutOfOrder
deriving DecidableEq, Repr

/-- Reserved-slot handle from ring_buffer/mod.rs (ReservedEntry): the
reservation's sequence index together with the slot content it references. -/
structure ReservedEntry (T : Type) where
  index : Nat
  entry : T
deriving DecidableEq, Repr

/-- Semantics of Rust u64::next_power_of_two as the doubling loop it
implements: starting from power = 1, double while power < n.  The fuel
argument (instantiated with n itself, which always suffices) makes the
recursion structural. -/
def nextPowerOfTwoFuel : Nat → Nat → Nat → Nat
  | _, power, 0 => power
  | n, power, fuel + 1 => if power < n then nextPowerOfTwoFuel n (power * 2) fuel else power

/-- Rust u64::next_power_of_two: the least power of two that is at least n,
with next_power_of_two 0 = 1. -/
def rustNextPowerOfTwo (n : Nat) : Nat := nextPowerOfTwoFuel n 1 n

/-- Producer half from ring_buffer/producer.rs (RingBufferProducer): shared
head and tail counters, the private shadow tail, the shared entries view and
the mask/shift layout parameters. -/
structure RingBufferProducer (T : Type) where
  head : Nat
  tail : Nat
  uncommitted_tail : Nat
  entries : List T
  mask : Nat
  shift : Nat
deriving Repr, DecidableEq

/-- Consumer half from ring_buffer/consumer.rs (RingBufferConsumer). -/
structure RingBufferConsumer (T : Type) where
  head : Nat
  tail : Nat
  uncommitted_head : Nat
  entries : List T
  mask : Nat
  shift : Nat
deriving Repr, DecidableEq

namespace RingBufferProducer

/-- Construction and validation, RingBufferProducer::new_internal: reject
slices longer than u32::MAX, lengths that are not their own next power of
two, and masks different from length - 1; on success the shadow tail is
initialised from the current tail. -/
def new_internal (T : Type) (entries : List T) (head tail mask : Nat) (big : Bool) :
    Except RingBufferError (RingBufferProducer T) :=
  if U32 - 1 < entries.length then
    .error .entriesSliceTooLong
  else if rustNextPowerOfTwo entries.length ≠ entries.length then
    .error .lengthNotPowerOfTwo
  else if mask ≠ entries.length - 1 then
    .error .invalidMaskValue
  else
    .ok ⟨head, tail, tail, entries, mask, if big then 1 else 0⟩

/-- RingBufferProducer::size. -/
def size (s : RingBufferProducer T) : Nat := s.entries.length >>> s.shift

/-- RingBufferProducer::available: tail minus head with u32 wraparound. -/
def available (s : RingBufferProducer T) : Nat := wsub s.tail s.head

/-- RingBufferProducer::empty: available (as usize) strictly below the
entries length. -/
def empty (s : RingBufferProducer T) : Bool :=
  decide (s.available < s.entries.length)

/-- RingBufferProducer::reserve.  Loads head and the shadow tail, fails when
the wrapping difference reaches the entries length, otherwise indexes the
entries slice (outer none models the out-of-bounds panic) and attempts the
CAS on the shadow tail; casOk tells whether the CAS wins the race.  On
success the handle carries the pre-CAS index. -/
def reserve (s : RingBufferProducer T) (casOk : Bool) :
    Option (Option (ReservedEntry T) × RingBufferProducer T) :=
  let head := s.head
  let tail := s.uncommitted_tail
  if s.entries.length ≤ wsub tail head then
    some (none, s)
  else
    match s.entries[(tail &&& s.mask) <<< s.shift]? with
    | none => none
    | some v =>
      if casOk then
        some (some ⟨tail, v⟩, { s with uncommitted_tail := (tail + 1) % U32 })
      else
        some (none, s)

/-- RingBufferProducer::commit: succeeds only when the handle's index equals
the current tail, in which case the tail advances by one (fetch_add wraps). -/
def commit (s : RingBufferProducer T) (entry : ReservedEntry T) :
    Except RingBufferError Unit × RingBufferProducer T :=
  if entry.index ≠ s.tail then
    (.error .commitOutOfOrder, s)
  else
    (.ok (), { s with tail := (s.tail + 1) % U32 })

end RingBufferProducer

namespace RingBufferConsumer

/-- Construction and validation, RingBufferConsumer::new_internal: same
checks as the producer; on success the shadow head is initialised from the
current head. -/
def new_internal (T : Type) (entries : List T) (head tail mask : Nat) (big : Bool) :
    Except RingBufferError (RingBufferConsumer T) :=
  if U32 - 1 < entries.length then
    .error .entriesSliceTooLong
  else if rustNextPowerOfTwo entries.length ≠ entries.length then
    .error .lengthNotPowerOfTwo
  else if mask ≠ entries.length - 1 then
    .error .invalidMaskValue
  else
    .ok ⟨head, tail, head, entries, mask, if big then 1 else 0⟩

/-- RingBufferConsumer::size. -/
def size (s : RingBufferConsumer T) : Nat := s.entries.length >>> s.shift

/-- RingBufferConsumer::available: tail minus head with u32 wraparound. -/
def available (s : RingBufferConsumer T) : Nat := wsub s.tail s.head

/-- RingBufferConsumer::empty. -/
def empty (s : RingBufferConsumer T) : Bool :=
  decide (s.available < s.entries.length)

/-- RingBufferConsumer::reserve: fails when the shadow head equals the tail,
otherwise indexes the entries slice (outer none models the out-of-bounds
panic) and CAS-advances the shadow head. -/
def reserve (s : RingBufferConsumer T) (casOk : Bool) :
    Option (Option (ReservedEntry T) × RingBufferConsumer T) :=
  let head := s.uncommitted_head
  let tail := s.tail
  if head = tail then
    some (none, s)
  else
    match s.entries[(head &&& s.mask) <<< s.shift]? with
    | none => none
    | some v =>
      if casOk then
        some (some ⟨head, v⟩, { s with uncommitted_head := (head + 1) % U32 })
      else
        some (none, s)

/-- RingBufferConsumer::commit: succeeds only when the handle's index equals
the current head, in which case the head advances by one. -/
def commit (s : RingBufferConsumer T) (entry : ReservedEntry T) :
    Except RingBufferError Unit × RingBufferConsumer T :=
  if entry.index ≠ s.head then
    (.error .commitOutOfOrder, s)
  else
    (.ok (), { s with head := (s.head + 1) % U32 })

end RingBufferConsumer

/-- Sequential driver for the producer: perform reserve (with a winning CAS)
immediately followed by commit of the returned handle, n times, collecting
the handed-out indices.  The result is none when any reserve panics, any
reserve returns no handle, or any commit fails. -/
def RingBufferProducer.reserveCommitN {T : Type} :
    Nat → RingBufferProducer T → Option (List Nat × RingBufferProducer T)
  | 0, s => some ([], s)
  | n + 1, s =>
    match s.reserve true with
    | none => none
    | some (none, _) => none
    | some (some e, s1) =>
      match s1.commit e with
      | (.error _, _) => none
      | (.ok _, s2) =>
        (RingBufferProducer.reserveCommitN n s2).map fun p => (e.index :: p.1, p.2)

/-- States and outstanding reservation indices reachable from s0 by any
sequence of reserve and commit operations through a single producer
instance.  Outstanding indices are kept in reservation order; a successful
commit consumes its handle, a failed commit keeps it available for retry. -/
inductive ProdReach {T : Type} (s0 : RingBufferProducer T) :
    RingBufferProducer T → List Nat → Prop where
  | init : ProdReach s0 s0 []
  | reserveOk {s : RingBufferProducer T} {out : List Nat} {casOk : Bool}
      {e : ReservedEntry T} {s1 : RingBufferProducer T}
      (h : ProdReach s0 s out) (hr : s.reserve casOk = some (some e, s1)) :
      ProdReach s0 s1 (out ++ [e.index])
  | reserveFail {s : RingBufferProducer T} {out : List Nat} {casOk : Bool}
      {s1 : RingBufferProducer T}
      (h : ProdReach s0 s out) (hr : s.reserve casOk = some (none, s1)) :
      ProdReach s0 s1 out
  | commitOk {s : RingBufferProducer T} {out : List Nat} {e : ReservedEntry T}
      {s1 : RingBufferProducer T}
      (h : ProdReach s0 s out) (he : e.index ∈ out)
      (hc : s.commit e = (.ok (), s1)) :
      ProdReach s0 s1 (out.erase e.index)
  | commitFail {s : RingBufferProducer T} {out : List Nat} {e : ReservedEntry T}
      {s1 : RingBufferProducer T} {err : RingBufferError}
      (h : ProdReach s0 s out) (he : e.index ∈ out)
      (hc : s.commit e = (.error err, s1)) :
      ProdReach s0 s1 out

/-- States and outstanding reservation indices reachable from c0 by any
sequence of reserve and commit operations through a single consumer
instance. -/
inductive ConsReach {T : Type} (c0 : RingBufferConsumer T) :
    RingBufferConsumer T → List Nat → Prop where
  | init : ConsReach c0 c0 []
  | reserveOk {s : RingBufferConsumer T} {out : List Nat} {casOk : Bool}
      {e : ReservedEntry T} {s1 : RingBufferConsumer T}
      (h : ConsReach c0 s out) (hr : s.reserve casOk = some (some e, s1)) :
      ConsReach c0 s1 (out ++ [e.index])
  | reserveFail {s : RingBufferConsumer T} {out : List Nat} {casOk : Bool}
      {s1 : RingBufferConsumer T}
      (h : ConsReach c0 s out) (hr : s.reserve casOk = some (none, s1)) :
      ConsReach c0 s1 out
  | commitOk {s : RingBufferConsumer T} {out : List Nat} {e : ReservedEntry T}
      {s1 : RingBufferConsumer T}
      (h : ConsReach c0 s out) (he : e.index ∈ out)
      (hc : s.commit e = (.ok (), s1)) :
      ConsReach c0 s1 (out.erase e.index)
  | commitFail {s : RingBufferConsumer T} {out : List Nat} {e : ReservedEntry T}
      {s1 : RingBufferConsumer T} {err : RingBufferError}
      (h : ConsReach c0 s out) (he : e.index ∈ out)
      (hc : s.commit e = (.error err, s1)) :
      ConsReach c0 s1 out

/-! ## Wrapping-arithmetic helper lemmas -/

theorem wsub_lt (a b : Nat) : wsub a b < U32 := by
  simp only [wsub, U32]; omega

theorem wsub_self (a : Nat) (ha : a < U32) : wsub a a = 0 := by
  have h : a < 4294967296 := ha
  simp only [wsub, U32]; omega

theorem wsub_succ_left (a b : Nat) (hb : b < U32) (h : wsub a b + 1 < U32) :
    wsub ((a + 1) % U32) b = wsub a b + 1 := by
  simp only [wsub, U32] at *; omega

theorem wsub_succ_right (a b : Nat) (hb : b < U32) (h : 1 ≤ wsub a b) :
    wsub a ((b + 1) % U32) = wsub a b - 1 := by
  simp only [wsub, U32] at *; omega

theorem add_wsub (a b : Nat) (ha : a < U32) (hb : b < U32) :
    (b + wsub a b) % U32 = a := by
  simp only [wsub, U32] at *; omega

theorem wsub_inj (a b c : Nat) (ha : a < U32) (hb : b < U32)
    (h : wsub a c = wsub b c) : a = b := by
  simp only [wsub, U32] at *; omega

theorem mod_add_rotate (t k : Nat) :
    ((t + 1) % U32 + k) % U32 = (t + (k + 1)) % U32 := by
  simp only [U32]; omega

/-! ## Next-power-of-two lemmas -/

theorem nextPowerOfTwoFuel_pow (k : Nat) :
    ∀ fuel j, j ≤ k → k - j ≤ fuel →
      nextPowerOfTwoFuel (2 ^ k) (2 ^ j) fuel = 2 ^ k := by
  intro fuel
  induction fuel with
  | zero =>
    intro j hj hf
    have : j = k := by omega
    subst this
    rfl
  | succ n ih =>
    intro j hj hf
    rcases Nat.lt_or_ge j k with hlt | hge
    · have hpow : 2 ^ j < 2 ^ k := Nat.pow_lt_pow_right (by omega) hlt
      have : nextPowerOfTwoFuel (2 ^ k) (2 ^ j) (n + 1)
          = nextPowerOfTwoFuel (2 ^ k) (2 ^ j * 2) n := by
        simp only [nextPowerOfTwoFuel, if_pos hpow]
      rw [this, ← Nat.pow_succ]
      exact ih (j + 1) (by omega) (by omega)
    · have : j = k := by omega
      subst this
      simp [nextPowerOfTwoFuel]

theorem rustNextPowerOfTwo_pow (k : Nat) : rustNextPowerOfTwo (2 ^ k) = 2 ^ k := by
  have hk : k ≤ 2 ^ k := (Nat.lt_two_pow k).le
  have := nextPowerOfTwoFuel_pow k (2 ^ k) 0 (Nat.zero_le k) (by omega)
  simpa [rustNextPowerOfTwo] using this

/-! ## Sample states used by the witnesses -/

/-- Normal-mode producer over two slots, tail = shadow tail = 5, head = 4. -/
def sampleProd : RingBufferProducer Nat := ⟨4, 5, 5, [10, 20], 1, 0⟩

/-- Normal-mode consumer over two slots, head = shadow head = 5, tail = 7. -/
def sampleCons : RingBufferConsumer Nat := ⟨5, 7, 5, [10, 20], 1, 0⟩

/-- Normal-mode producer with head = tail = shadow tail = 5 (empty ring). -/
def sampleProdEq : RingBufferProducer Nat := ⟨5, 5, 5, [10, 20], 1, 0⟩

/-- Normal-mode consumer with head = tail = shadow head = 5 (nothing to claim). -/
def sampleConsEq : RingBufferConsumer Nat := ⟨5, 5, 5, [10, 20], 1, 0⟩

/-! ## C1: commits succeed exactly in reservation order -/

/-- C1: for both the producer and the consumer, commit(handle) succeeds if
and only if handle.index equals the externally visible counter it publishes
to (tail for the producer, head for the consumer); on success that counter
advances by exactly one (mod 2^32), and on failure it returns
CommitOutOfOrder and leaves the state unchanged.  In particular, with the
counter at i and reservations R1 (index i) and R2 (index i+1), committing R2
first fails with CommitOutOfOrder and leaves the counter unchanged,
committing R1 then succeeds, and committing R2 afterwards succeeds. -/
theorem commit_in_order_iff {T : Type} (sp : RingBufferProducer T)
    (sc : RingBufferConsumer T) (e f : ReservedEntry T) (i : Nat) (v1 v2 : T)
    (hp : sp.tail = i) (hc : sc.head = i) (hi : i < U32) :
    ((sp.commit e).1 = .ok () ↔ e.index = sp.tail)
    ∧ (e.index = sp.tail →
        sp.commit e = (.ok (), { sp with tail := (sp.tail + 1) % U32 }))
    ∧ (e.index ≠ sp.tail → sp.commit e = (.error .commitOutOfOrder, sp))
    ∧ ((sc.commit f).1 = .ok () ↔ f.index = sc.head)
    ∧ (f.index = sc.head →
        sc.commit f = (.ok (), { sc with head := (sc.head + 1) % U32 }))
    ∧ (f.index ≠ sc.head → sc.commit f = (.error .commitOutOfOrder, sc))
    ∧ (sp.commit ⟨(i + 1) % U32, v2⟩ = (.error .commitOutOfOrder, sp)
       ∧ sp.commit ⟨i, v1⟩ = (.ok (), { sp with tail := (i + 1) % U32 })
       ∧ RingBufferProducer.commit { sp with tail := (i + 1) % U32 } ⟨(i + 1) % U32, v2⟩
          = (.ok (), { sp with tail := ((i + 1) % U32 + 1) % U32 }))
    ∧ (sc.commit ⟨(i + 1) % U32, v2⟩ = (.error .commitOutOfOrder, sc)
       ∧ sc.commit ⟨i, v1⟩ = (.ok (), { sc with head := (i + 1) % U32 })
       ∧ RingBufferConsumer.commit { sc with head := (i + 1) % U32 } ⟨(i + 1) % U32, v2⟩
          = (.ok (), { sc with head := ((i + 1) % U32 + 1) % U32 })) := by
  have hne : (i + 1) % U32 ≠ i := by
    have : i < 4294967296 := hi
    simp only [U32]; omega
  refine ⟨?_, ?_, ?_, ?_, ?_, ?_, ⟨?_, ?_, ?_⟩, ⟨?_, ?_, ?_⟩⟩
  · by_cases h : e.index = sp.tail <;> simp [RingBufferProducer.commit, h]
  · intro h; simp [RingBufferProducer.commit, h]
  · intro h; simp [RingBufferProducer.commit, h]
  · by_cases h : f.index = sc.head <;> simp [RingBufferConsumer.commit, h]
  · intro h; simp [RingBufferConsumer.commit, h]
  · intro h; simp [RingBufferConsumer.commit, h]
  · simp [RingBufferProducer.commit, hp, hne]
  · simp [RingBufferProducer.commit, hp]
  · simp [RingBufferProducer.commit, hp]
  · simp [RingBufferConsumer.commit, hc, hne]
  · simp [RingBufferConsumer.commit, hc]
  · simp [RingBufferConsumer.commit, hc]

/-- Witness for C1: the commit-ordering scenario evaluated on the sample
producer and consumer with the counter at 5: committing index 6 first fails
and leaves the state unchanged, committing index 5 succeeds, then committing
index 6 succeeds. -/
theorem commit_in_order_iff_witness :
    sampleProd.commit ⟨(5 + 1) % U32, 20⟩ = (.error .commitOutOfOrder, sampleProd)
    ∧ sampleProd.commit ⟨5, 10⟩ = (.ok (), { sampleProd with tail := (5 + 1) % U32 })
    ∧ RingBufferProducer.commit { sampleProd with tail := (5 + 1) % U32 } ⟨(5 + 1) % U32, 20⟩
        = (.ok (), { sampleProd with tail := ((5 + 1) % U32 + 1) % U32 })
    ∧ sampleCons.commit ⟨(5 + 1) % U32, 20⟩ = (.error .commitOutOfOrder, sampleCons)
    ∧ sampleCons.commit ⟨5, 10⟩ = (.ok (), { sampleCons with head := (5 + 1) % U32 })
    ∧ RingBufferConsumer.commit { sampleCons with head := (5 + 1) % U32 } ⟨(5 + 1) % U32, 20⟩
        = (.ok (), { sampleCons with head := ((5 + 1) % U32 + 1) % U32 }) := by
  obtain ⟨-, -, -, -, -, -, hp, hc⟩ :=
    commit_in_order_iff sampleProd sampleCons ⟨5, 10⟩ ⟨5, 10⟩ 5 10 20 rfl rfl (by decide)
  exact ⟨hp.1, hp.2.1, hp.2.2, hc.1, hc.2.1, hc.2.2⟩

/-! ## Shared lemmas about reserve and commit -/

theorem prod_pos_lt_of_shift_zero {T : Type} (s : RingBufferProducer T)
    (hshift : s.shift = 0) (hmask : s.mask = s.entries.length - 1)
    (hlen : 1 ≤ s.entries.length) :
    (s.uncommitted_tail &&& s.mask) <<< s.shift < s.entries.length := by
  rw [hshift, Nat.shiftLeft_zero, hmask]
  have h : s.uncommitted_tail &&& (s.entries.length - 1) ≤ s.entries.length - 1 :=
    Nat.and_le_right
  omega

theorem prod_reserve_success {T : Type} (s : RingBufferProducer T) (v : T)
    (hv : s.entries[(s.uncommitted_tail &&& s.mask) <<< s.shift]? = some v)
    (hroom : wsub s.uncommitted_tail s.head < s.entries.length) :
    s.reserve true = some (some ⟨s.uncommitted_tail, v⟩,
      { s with uncommitted_tail := (s.uncommitted_tail + 1) % U32 }) := by
  simp [RingBufferProducer.reserve, Nat.not_le.mpr hroom, hv]

theorem prod_reserve_full {T : Type} (s : RingBufferProducer T) (casOk : Bool)
    (hfull : s.entries.length ≤ wsub s.uncommitted_tail s.head) :
    s.reserve casOk = some (none, s) := by
  simp [RingBufferProducer.reserve, hfull]

theorem prod_commit_success {T : Type} (s : RingBufferProducer T)
    (e : ReservedEntry T) (he : e.index = s.tail) :
    s.commit e = (.ok (), { s with tail := (s.tail + 1) % U32 }) := by
  simp [RingBufferProducer.commit, he]

theorem prod_reserve_some_inv {T : Type} {s s1 : RingBufferProducer T} {casOk : Bool}
    {e : ReservedEntry T} (h : s.reserve casOk = some (some e, s1)) :
    wsub s.uncommitted_tail s.head < s.entries.length
    ∧ e.index = s.uncommitted_tail
    ∧ s1 = { s with uncommitted_tail := (s.uncommitted_tail + 1) % U32 } := by
  simp only [RingBufferProducer.reserve] at h
  by_cases hfull : s.entries.length ≤ wsub s.uncommitted_tail s.head
  · rw [if_pos hfull] at h
    simp at h
  · rw [if_neg hfull] at h
    cases hm : s.entries[(s.uncommitted_tail &&& s.mask) <<< s.shift]? with
    | none => rw [hm] at h; simp at h
    | some v =>
      rw [hm] at h
      cases casOk with
      | false => simp at h
      | true =>
        simp only [if_true, Option.some.injEq, Prod.mk.injEq] at h
        obtain ⟨he, hs⟩ := h
        exact ⟨by omega, by rw [← he], hs.symm⟩

theorem prod_reserve_none_inv {T : Type} {s s1 : RingBufferProducer T} {casOk : Bool}
    (h : s.reserve casOk = some (none, s1)) : s1 = s := by
  simp only [RingBufferProducer.reserve] at h
  by_cases hfull : s.entries.length ≤ wsub s.uncommitted_tail s.head
  · rw [if_pos hfull] at h
    simp at h
    exact h.symm
  · rw [if_neg hfull] at h
    cases hm : s.entries[(s.uncommitted_tail &&& s.mask) <<< s.shift]? with
    | none => rw [hm] at h; simp at h
    | some v =>
      rw [hm] at h
      cases casOk with
      | false => simp at h; exact h.symm
      | true => simp at h

theorem prod_commit_ok_inv {T : Type} {s s1 : RingBufferProducer T} {e : ReservedEntry T}
    (h : s.commit e = (.ok (), s1)) :
    e.index = s.tail ∧ s1 = { s with tail := (s.tail + 1) % U32 } := by
  simp only [RingBufferProducer.commit] at h
  by_cases hne : e.index = s.tail
  · rw [if_neg (by simpa using hne)] at h
    simp only [Prod.mk.injEq] at h
    exact ⟨hne, h.2.symm⟩
  · rw [if_pos (by simpa using hne)] at h
    simp at h

theorem prod_commit_err_inv {T : Type} {s s1 : RingBufferProducer T} {e : ReservedEntry T}
    {err : RingBufferError} (h : s.commit e = (.error err, s1)) : s1 = s := by
  simp only [RingBufferProducer.commit] at h
  by_cases hne : e.index = s.tail
  · rw [if_neg (by simpa using hne)] at h
    simp at h
  · rw [if_pos (by simpa using hne)] at h
    simp only [Prod.mk.injEq] at h
    exact h.2.symm

theorem cons_reserve_some_inv {T : Type} {s s1 : RingBufferConsumer T} {casOk : Bool}
    {e : ReservedEntry T} (h : s.reserve casOk = some (some e, s1)) :
    s.uncommitted_head ≠ s.tail
    ∧ e.index = s.uncommitted_head
    ∧ s1 = { s with uncommitted_head := (s.uncommitted_head + 1) % U32 } := by
  simp only [RingBufferConsumer.reserve] at h
  by_cases hne : s.uncommitted_head = s.tail
  · rw [if_pos hne] at h
    simp at h
  · rw [if_neg hne] at h
    cases hm : s.entries[(s.uncommitted_head &&& s.mask) <<< s.shift]? with
    | none => rw [hm] at h; simp at h
    | some v =>
      rw [hm] at h
      cases casOk with
      | false => simp at h
      | true =>
        simp only [if_true, Option.some.injEq, Prod.mk.injEq] at h
        obtain ⟨he, hs⟩ := h
        exact ⟨hne, by rw [← he], hs.symm⟩

theorem cons_reserve_none_inv {T : Type} {s s1 : RingBufferConsumer T} {casOk : Bool}
    (h : s.reserve casOk = some (none, s1)) : s1 = s := by
  simp only [RingBufferConsumer.reserve] at h
  by_cases hne : s.uncommitted_head = s.tail
  · rw [if_pos hne] at h
    simp at h
    exact h.symm
  · rw [if_neg hne] at h
    cases hm : s.entries[(s.uncommitted_head &&& s.mask) <<< s.shift]? with
    | none => rw [hm] at h; simp at h
    | some v =>
      rw [hm] at h
      cases casOk with
      | false => simp at h; exact h.symm
      | true => simp at h

theorem cons_commit_ok_inv {T : Type} {s s1 : RingBufferConsumer T} {e : ReservedEntry T}
    (h : s.commit e = (.ok (), s1)) :
    e.index = s.head ∧ s1 = { s with head := (s.head + 1) % U32 } := by
  simp only [RingBufferConsumer.commit] at h
  by_cases hne : e.index = s.head
  · rw [if_neg (by simpa using hne)] at h
    simp only [Prod.mk.injEq] at h
    exact ⟨hne, h.2.symm⟩
  · rw [if_pos (by simpa using hne)] at h
    simp at h

theorem cons_commit_err_inv {T : Type} {s s1 : RingBufferConsumer T} {e : ReservedEntry T}
    {err : RingBufferError} (h : s.commit e = (.error err, s1)) : s1 = s := by
  simp only [RingBufferConsumer.commit] at h
  by_cases hne : e.index = s.head
  · rw [if_neg (by simpa using hne)] at h
    simp at h
  · rw [if_pos (by simpa using hne)] at h
    simp only [Prod.mk.injEq] at h
    exact h.2.symm

/-! ## C2: in-bounds slice access in reserve -/

/-- C2: the claim that every successful reserve accesses entries in bounds
fails in big mode, and the code panics there.  Over a two-slot big-mode ring
(mask 1, shift 1), construction at head = tail = 0 succeeds; reserving and
committing index 0 works, but the next reserve computes slice position
(1 and 1) shifted left by 1 = 2, which is not below the entries length 2, so
the slice indexing panics (modelled by reserve returning the outer none).
The same position arithmetic panics for the big-mode consumer with
shadow head 1 and tail 2. -/
theorem reserve_big_mode_out_of_bounds :
    RingBufferProducer.new_internal Nat [10, 20] 0 0 1 true
      = .ok ⟨0, 0, 0, [10, 20], 1, 1⟩
    ∧ (⟨0, 0, 0, [10, 20], 1, 1⟩ : RingBufferProducer Nat).reserve true
      = some (some ⟨0, 10⟩, ⟨0, 0, 1, [10, 20], 1, 1⟩)
    ∧ (⟨0, 0, 1, [10, 20], 1, 1⟩ : RingBufferProducer Nat).commit ⟨0, 10⟩
      = (.ok (), ⟨0, 1, 1, [10, 20], 1, 1⟩)
    ∧ ((1 &&& 1) <<< 1 : Nat) = 2
    ∧ ¬(((1 &&& 1) <<< 1 : Nat) < ([10, 20] : List Nat).length)
    ∧ (⟨0, 1, 1, [10, 20], 1, 1⟩ : RingBufferProducer Nat).reserve true = none
    ∧ RingBufferConsumer.new_internal Nat [10, 20] 1 2 1 true
      = .ok ⟨1, 2, 1, [10, 20], 1, 1⟩
    ∧ (⟨1, 2, 1, [10, 20], 1, 1⟩ : RingBufferConsumer Nat).reserve true = none := by
  decide

/-! ## C3: producer reserve characterization -/

/-- C3 (amended): provided the computed slice position
(shadow tail and mask) shifted left by shift is in bounds — always the case
in normal mode, but violated in big mode, where reserve panics instead (see
the counterexample) — producer reserve() returns no handle exactly when the
wrapping difference shadow_tail - head is at least entries.len() (ring full)
or the compare-and-swap fails, with no state changed on those failure paths;
otherwise it advances the shadow tail by exactly one (mod 2^32) and returns
a handle carrying the pre-CAS index and the entry at the computed
position. -/
theorem producer_reserve_characterization {T : Type} (s : RingBufferProducer T)
    (casOk : Bool) (v : T)
    (hv : s.entries[(s.uncommitted_tail &&& s.mask) <<< s.shift]? = some v) :
    (s.reserve casOk = some (none, s)
      ↔ (s.entries.length ≤ wsub s.uncommitted_tail s.head ∨ casOk = false))
    ∧ (wsub s.uncommitted_tail s.head < s.entries.length → casOk = true →
        s.reserve casOk = some (some ⟨s.uncommitted_tail, v⟩,
          { s with uncommitted_tail := (s.uncommitted_tail + 1) % U32 })) := by
  by_cases hfull : s.entries.length ≤ wsub s.uncommitted_tail s.head
  · constructor
    · simp [RingBufferProducer.reserve, hfull]
    · intro h; omega
  · cases casOk with
    | false =>
      constructor
      · simp [RingBufferProducer.reserve, hfull, hv]
      · intro _ h; cases h
    | true =>
      constructor
      · simp [RingBufferProducer.reserve, hfull, hv]
      · intro _ _
        simp [RingBufferProducer.reserve, hfull, hv]

/-- C3 counterexample: a reachable big-mode producer state (constructed
directly with tail 1) that is not full and whose CAS would win, yet reserve
neither returns a handle nor reports no-handle with unchanged state — it
panics on the out-of-bounds slice index, so the claim's exhaustive
characterization of reserve is false as stated. -/
theorem producer_reserve_characterization_counterexample :
    RingBufferProducer.new_internal Nat [10, 20] 0 1 1 true
      = .ok ⟨0, 1, 1, [10, 20], 1, 1⟩
    ∧ wsub (⟨0, 1, 1, [10, 20], 1, 1⟩ : RingBufferProducer Nat).uncommitted_tail
        (⟨0, 1, 1, [10, 20], 1, 1⟩ : RingBufferProducer Nat).head
        < (⟨0, 1, 1, [10, 20], 1, 1⟩ : RingBufferProducer Nat).entries.length
    ∧ (⟨0, 1, 1, [10, 20], 1, 1⟩ : RingBufferProducer Nat).reserve true = none := by
  decide

/-- Witness for C3: on the sample producer (shadow tail 5, head 4, two
slots) a winning reserve hands out index 5 with the entry at position 1 and
advances the shadow tail, while a losing CAS returns no handle and leaves
the state unchanged. -/
theorem producer_reserve_characterization_witness :
    sampleProd.reserve true = some (some ⟨5, 20⟩,
      { sampleProd with uncommitted_tail := (5 + 1) % U32 })
    ∧ sampleProd.reserve false = some (none, sampleProd) :=
  ⟨(producer_reserve_characterization sampleProd true 20 (by decide)).2
      (by decide) rfl,
   ((producer_reserve_characterization sampleProd false 20 (by decide)).1).mpr
      (Or.inr rfl)⟩

/-! ## C4: consumer reserve characterization -/

/-- C4 (amended): provided the computed slice position
(shadow head and mask) shifted left by shift is in bounds — always the case
in normal mode, but violated in big mode, where reserve panics instead (see
the counterexample) — consumer reserve() returns no handle exactly when the
shadow head equals the tail (nothing claimable) or the compare-and-swap
fails; otherwise it advances the shadow head by exactly one (mod 2^32) and
returns a handle carrying the pre-CAS index and the entry at the computed
position. -/
theorem consumer_reserve_characterization {T : Type} (s : RingBufferConsumer T)
    (casOk : Bool) (v : T)
    (hv : s.entries[(s.uncommitted_head &&& s.mask) <<< s.shift]? = some v) :
    (s.reserve casOk = some (none, s)
      ↔ (s.uncommitted_head = s.tail ∨ casOk = false))
    ∧ (s.uncommitted_head ≠ s.tail → casOk = true →
        s.reserve casOk = some (some ⟨s.uncommitted_head, v⟩,
          { s with uncommitted_head := (s.uncommitted_head + 1) % U32 })) := by
  by_cases hempty : s.uncommitted_head = s.tail
  · constructor
    · simp [RingBufferConsumer.reserve, hempty]
    · intro h; exact absurd hempty h
  · cases casOk with
    | false =>
      constructor
      · simp [RingBufferConsumer.reserve, hempty, hv]
      · intro _ h; cases h
    | true =>
      constructor
      · simp [RingBufferConsumer.reserve, hempty, hv]
      · intro _ _
        simp [RingBufferConsumer.reserve, hempty, hv]

/-- C4 counterexample: a big-mode consumer state (constructed with head 1,
tail 2) whose shadow head differs from the tail and whose CAS would win, yet
reserve neither returns a handle nor reports no-handle — it panics on the
out-of-bounds slice index, so the claim's exhaustive characterization of
reserve is false as stated. -/
theorem consumer_reserve_characterization_counterexample :
    RingBufferConsumer.new_internal Nat [10, 20] 1 2 1 true
      = .ok ⟨1, 2, 1, [10, 20], 1, 1⟩
    ∧ (⟨1, 2, 1, [10, 20], 1, 1⟩ : RingBufferConsumer Nat).uncommitted_head
        ≠ (⟨1, 2, 1, [10, 20], 1, 1⟩ : RingBufferConsumer Nat).tail
    ∧ (⟨1, 2, 1, [10, 20], 1, 1⟩ : RingBufferConsumer Nat).reserve true = none := by
  decide

/-- Witness for C4: on the sample consumer (shadow head 5, tail 7, two
slots) a winning reserve hands out index 5 with the entry at position 1 and
advances the shadow head, while a losing CAS returns no handle and leaves
the state unchanged. -/
theorem consumer_reserve_characterization_witness :
    sampleCons.reserve true = some (some ⟨5, 20⟩,
      { sampleCons with uncommitted_head := (5 + 1) % U32 })
    ∧ sampleCons.reserve false = some (none, sampleCons) :=
  ⟨(consumer_reserve_characterization sampleCons true 20 (by decide)).2
      (by decide) rfl,
   ((consumer_reserve_characterization sampleCons false 20 (by decide)).1).mpr
      (Or.inr rfl)⟩

/-! ## C5: construction validation -/

/-- C5 (amended): for every entries slice whose length is a power of two not
exceeding 2^32 - 1 and every mask equal to length - 1, construction of a
producer or consumer succeeds; and each of the three mismatch cases
independently produces its specific error, checked in order: length
exceeding 2^32 - 1 yields EntriesSliceTooLong, then length not equal to its
own next power of two yields LengthNotPowerOfTwo, then mask different from
length - 1 yields InvalidMaskValue. -/
theorem construction_validation {T : Type} (entries : List T)
    (head tail mask : Nat) (big : Bool) :
    ((∃ k, entries.length = 2 ^ k) → entries.length ≤ U32 - 1 →
      mask = entries.length - 1 →
        RingBufferProducer.new_internal T entries head tail mask big
          = .ok ⟨head, tail, tail, entries, mask, if big then 1 else 0⟩
        ∧ RingBufferConsumer.new_internal T entries head tail mask big
          = .ok ⟨head, tail, head, entries, mask, if big then 1 else 0⟩)
    ∧ (U32 - 1 < entries.length →
        RingBufferProducer.new_internal T entries head tail mask big
          = .error .entriesSliceTooLong
        ∧ RingBufferConsumer.new_internal T entries head tail mask big
          = .error .entriesSliceTooLong)
    ∧ (entries.length ≤ U32 - 1 →
        rustNextPowerOfTwo entries.length ≠ entries.length →
        RingBufferProducer.new_internal T entries head tail mask big
          = .error .lengthNotPowerOfTwo
        ∧ RingBufferConsumer.new_internal T entries head tail mask big
          = .error .lengthNotPowerOfTwo)
    ∧ (entries.length ≤ U32 - 1 →
        rustNextPowerOfTwo entries.length = entries.length →
        mask ≠ entries.length - 1 →
        RingBufferProducer.new_internal T entries head tail mask big
          = .error .invalidMaskValue
        ∧ RingBufferConsumer.new_internal T entries head tail mask big
          = .error .invalidMaskValue) := by
  refine ⟨?_, ?_, ?_, ?_⟩
  · rintro ⟨k, hk⟩ hle hm
    have hpow : rustNextPowerOfTwo entries.length = entries.length := by
      rw [hk]; exact rustNextPowerOfTwo_pow k
    constructor <;>
      simp [RingBufferProducer.new_internal, RingBufferConsumer.new_internal,
        Nat.not_lt.mpr hle, hpow, hm]
  · intro h
    constructor <;>
      simp [RingBufferProducer.new_internal, RingBufferConsumer.new_internal, h]
  · intro hle hne
    constructor <;>
      simp [RingBufferProducer.new_internal, RingBufferConsumer.new_internal,
        Nat.not_lt.mpr hle, hne]
  · intro hle hpow hm
    constructor <;>
      simp [RingBufferProducer.new_internal, RingBufferConsumer.new_internal,
        Nat.not_lt.mpr hle, hpow, hm]

/-- C5 counterexample: a slice of length 2^32 has power-of-two length with
mask = length - 1, yet construction does not succeed — the too-long check
rejects it first — so the claim's unrestricted "for every power-of-two
length, construction succeeds" is false. -/
theorem construction_validation_counterexample :
    (List.replicate (2 ^ 32) (0 : Nat)).length = 2 ^ 32
    ∧ RingBufferProducer.new_internal Nat (List.replicate (2 ^ 32) 0) 0 0 (2 ^ 32 - 1) false
        = .error .entriesSliceTooLong
    ∧ RingBufferConsumer.new_internal Nat (List.replicate (2 ^ 32) 0) 0 0 (2 ^ 32 - 1) false
        = .error .entriesSliceTooLong := by
  have hlen : U32 - 1 < (List.replicate (2 ^ 32) (0 : Nat)).length := by
    rw [List.length_replicate]; norm_num [U32]
  refine ⟨by rw [List.length_replicate], ?_, ?_⟩
  · unfold RingBufferProducer.new_internal
    rw [if_pos hlen]
  · unfold RingBufferConsumer.new_internal
    rw [if_pos hlen]

/-- Witness for C5: all four validation branches evaluated concretely — a
valid two-slot ring succeeds, a 2^32-slot ring is too long, a three-slot
ring is not a power of two, and a wrong mask is rejected. -/
theorem construction_validation_witness :
    (RingBufferProducer.new_internal Nat [10, 20] 7 9 1 false
        = .ok ⟨7, 9, 9, [10, 20], 1, 0⟩
      ∧ RingBufferConsumer.new_internal Nat [10, 20] 7 9 1 false
        = .ok ⟨7, 9, 7, [10, 20], 1, 0⟩)
    ∧ (RingBufferProducer.new_internal Nat (List.replicate (2 ^ 32) 0) 0 0 0 false
        = .error .entriesSliceTooLong
      ∧ RingBufferConsumer.new_internal Nat (List.replicate (2 ^ 32) 0) 0 0 0 false
        = .error .entriesSliceTooLong)
    ∧ (RingBufferProducer.new_internal Nat [10, 20, 30] 0 0 2 false
        = .error .lengthNotPowerOfTwo
      ∧ RingBufferConsumer.new_internal Nat [10, 20, 30] 0 0 2 false
        = .error .lengthNotPowerOfTwo)
    ∧ (RingBufferProducer.new_internal Nat [10, 20] 0 0 0 true
        = .error .invalidMaskValue
      ∧ RingBufferConsumer.new_internal Nat [10, 20] 0 0 0 true
        = .error .invalidMaskValue) :=
  ⟨(construction_validation [10, 20] 7 9 1 false).1 ⟨1, rfl⟩ (by decide) rfl,
   (construction_validation (List.replicate (2 ^ 32) 0) 0 0 0 false).2.1
     (by rw [List.length_replicate]; norm_num [U32]),
   (construction_validation [10, 20, 30] 0 0 2 false).2.2.1 (by decide) (by decide),
   (construction_validation [10, 20] 0 0 0 true).2.2.2 (by decide) (by decide)
     (by decide)⟩

/-! ## C7: sequential reserve-commit runs -/

/-- C7 (amended): a single-threaded normal-mode (shift = 0) producer with a
valid mask, no outstanding reservation and counters below 2^32, performing
reserve followed by commit N times with N at most the remaining free space,
advances the tail by exactly N and hands out the indices
tail0, tail0+1, ..., tail0+N-1 (mod 2^32) in order; and when N exhausts the
free space exactly, a further reserve fails and changes no counter.  (In big
mode the run can instead panic on the slice index, see the
counterexample.) -/
theorem producer_sequential_run {T : Type} (N : Nat) (s : RingBufferProducer T)
    (hshift : s.shift = 0)
    (hmask : s.mask = s.entries.length - 1)
    (hlen : 1 ≤ s.entries.length) (hlenU : s.entries.length < U32)
    (hsync : s.uncommitted_tail = s.tail)
    (hh : s.head < U32) (ht : s.tail < U32)
    (hN : N ≤ s.entries.length - wsub s.tail s.head) :
    RingBufferProducer.reserveCommitN N s
      = some ((List.range N).map (fun k => (s.tail + k) % U32),
          { s with tail := (s.tail + N) % U32, uncommitted_tail := (s.tail + N) % U32 })
    ∧ (N = s.entries.length - wsub s.tail s.head →
        RingBufferProducer.reserve
          { s with tail := (s.tail + N) % U32, uncommitted_tail := (s.tail + N) % U32 } true
          = some (none,
            { s with tail := (s.tail + N) % U32,
                     uncommitted_tail := (s.tail + N) % U32 })) := by
  induction N generalizing s with
  | zero =>
    obtain ⟨sh, st, sut, se, sm, ss⟩ := s
    simp only at hshift hmask hsync hh ht hN hlen hlenU
    subst hshift hmask
    have hsync2 : sut = st := hsync
    have hsync3 : st = sut := hsync2.symm
    subst hsync3
    constructor
    · simp [RingBufferProducer.reserveCommitN, Nat.mod_eq_of_lt ht]
    · intro hfull
      simp only at hfull
      have hge : se.length ≤ wsub st sh := by omega
      simpa [Nat.mod_eq_of_lt ht] using
        prod_reserve_full ⟨sh, st, st, se, se.length - 1, 0⟩ true hge
  | succ n ih =>
    obtain ⟨sh, st, sut, se, sm, ss⟩ := s
    simp only at hshift hmask hsync hh ht hN hlen hlenU
    subst hshift hmask
    have hsync2 : sut = st := hsync
    have hsync3 : st = sut := hsync2.symm
    subst hsync3
    have hroom : wsub st sh < se.length := by omega
    have hpos : (st &&& (se.length - 1)) <<< 0 < se.length := by
      rw [Nat.shiftLeft_zero]
      have h : st &&& (se.length - 1) ≤ se.length - 1 := Nat.and_le_right
      omega
    have hv : se[(st &&& (se.length - 1)) <<< 0]? = some (se.get ⟨(st &&& (se.length - 1)) <<< 0, hpos⟩) :=
      List.getElem?_eq_getElem hpos
    have hres := prod_reserve_success ⟨sh, st, st, se, se.length - 1, 0⟩ _ hv hroom
    have hcom := prod_commit_success
      (⟨sh, st, (st + 1) % U32, se, se.length - 1, 0⟩ : RingBufferProducer T)
      ⟨st, se.get ⟨(st &&& (se.length - 1)) <<< 0, hpos⟩⟩ rfl
    have hw : wsub ((st + 1) % U32) sh = wsub st sh + 1 :=
      wsub_succ_left st sh hh (by omega)
    have hih := ih ⟨sh, (st + 1) % U32, (st + 1) % U32, se, se.length - 1, 0⟩
      rfl rfl hlen hlenU rfl hh (Nat.mod_lt _ (by decide))
      (by show n ≤ se.length - wsub ((st + 1) % U32) sh; rw [hw]; omega)
    have hrot : ∀ k, ((st + 1) % U32 + k) % U32 = (st + (k + 1)) % U32 :=
      fun k => mod_add_rotate st k
    have hlist : (List.range (n + 1)).map (fun k => (st + k) % U32)
        = st :: (List.range n).map (fun k => ((st + 1) % U32 + k) % U32) := by
      rw [List.range_succ_eq_map, List.map_cons, List.map_map]
      refine congrArg₂ _ (by rw [Nat.add_zero, Nat.mod_eq_of_lt ht]) ?_
      refine List.map_congr_left fun k _ => ?_
      simp only [Function.comp_apply]
      rw [hrot k]
    constructor
    · simp only [RingBufferProducer.reserveCommitN, hres, hcom, hih.1, Option.map_some]
      rw [hlist]
      have hst : ((st + 1) % U32 + n) % U32 = (st + (n + 1)) % U32 := hrot n
      rw [hst]
      rfl
    · intro hfull
      simp only at hfull
      have hn : n = se.length - wsub ((st + 1) % U32) sh := by rw [hw]; omega
      have := hih.2 hn
      rw [hrot n] at this
      exact this

/-- C7 counterexample: a big-mode producer constructed with head 0 and
tail 1 has one slot of free space, yet a single reserve-then-commit cycle
does not advance the tail by one — the reserve panics on the out-of-bounds
slice position, so the run aborts. -/
theorem producer_sequential_run_counterexample :
    RingBufferProducer.new_internal Nat [10, 20] 0 1 1 true
      = .ok ⟨0, 1, 1, [10, 20], 1, 1⟩
    ∧ (1 : Nat) ≤ ([10, 20] : List Nat).length - wsub 1 0
    ∧ RingBufferProducer.reserveCommitN 1
        (⟨0, 1, 1, [10, 20], 1, 1⟩ : RingBufferProducer Nat) = none := by
  decide

/-- Witness for C7: a fresh two-slot normal-mode producer (all counters 0)
runs two reserve-commit cycles, handing out indices 0 then 1 and advancing
the tail to 2; the next reserve then fails and changes nothing. -/
theorem producer_sequential_run_witness :
    RingBufferProducer.reserveCommitN 2
        (⟨0, 0, 0, [10, 20], 1, 0⟩ : RingBufferProducer Nat)
      = some ([0, 1], ⟨0, 2, 2, [10, 20], 1, 0⟩)
    ∧ RingBufferProducer.reserve (⟨0, 2, 2, [10, 20], 1, 0⟩ : RingBufferProducer Nat) true
      = some (none, ⟨0, 2, 2, [10, 20], 1, 0⟩) := by
  obtain ⟨h1, h2⟩ := producer_sequential_run 2 ⟨0, 0, 0, [10, 20], 1, 0⟩
    rfl rfl (by decide) (by decide) rfl (by decide) (by decide) (by decide)
  exact ⟨h1, h2 (by decide)⟩

/-! ## C6: zero-length rings are rejected -/

/-- C6: for every mask value (and any head, tail and mode), constructing a
producer or consumer over a zero-length entries slice deterministically
returns an error: next_power_of_two 0 = 1 differs from 0, so the
power-of-two check fires with LengthNotPowerOfTwo before the mask check and
its length-minus-one computation is ever reached. -/
theorem zero_length_rejected (T : Type) (head tail mask : Nat) (big : Bool) :
    RingBufferProducer.new_internal T [] head tail mask big
      = .error .lengthNotPowerOfTwo
    ∧ RingBufferConsumer.new_internal T [] head tail mask big
      = .error .lengthNotPowerOfTwo
    ∧ rustNextPowerOfTwo 0 = 1 :=
  ⟨rfl, rfl, rfl⟩

/-! ## C8: available is the wrapping difference of tail and head -/

/-- C8: for every state of the shared counters (below 2^32, as u32 values
are), available() on both the producer and the consumer returns exactly
(tail - head) mod 2^32; and when head equals tail — with the consumer's
shadow head at head, as at construction — available() is 0 and consumer
reserve() returns no handle. -/
theorem available_is_wrapping_difference {T : Type} (sp : RingBufferProducer T)
    (sc : RingBufferConsumer T)
    (h1 : sp.head < U32) (h2 : sp.tail < U32) (h3 : sc.head < U32) (h4 : sc.tail < U32) :
    ((sp.available : Int) = ((sp.tail : Int) - sp.head) % 2 ^ 32)
    ∧ ((sc.available : Int) = ((sc.tail : Int) - sc.head) % 2 ^ 32)
    ∧ (sp.head = sp.tail → sp.available = 0)
    ∧ (sc.head = sc.tail → sc.available = 0)
    ∧ (sc.uncommitted_head = sc.head → sc.head = sc.tail →
        ∀ casOk, sc.reserve casOk = some (none, sc)) := by
  have g1 : sp.head < 4294967296 := h1
  have g2 : sp.tail < 4294967296 := h2
  have g3 : sc.head < 4294967296 := h3
  have g4 : sc.tail < 4294967296 := h4
  refine ⟨?_, ?_, ?_, ?_, ?_⟩
  · simp only [RingBufferProducer.available, wsub, U32]; omega
  · simp only [RingBufferConsumer.available, wsub, U32]; omega
  · intro h; simp only [RingBufferProducer.available, wsub, U32, h]; omega
  · intro h; simp only [RingBufferConsumer.available, wsub, U32, h]; omega
  · intro h5 h6 casOk
    simp [RingBufferConsumer.reserve, h5, h6]

/-- Witness for C8: the wrapping formula evaluated on the sample producer
(tail 5, head 4) and consumer (tail 7, head 5), and the head-equals-tail
consequences evaluated on the samples with all counters at 5. -/
theorem available_is_wrapping_difference_witness :
    ((sampleProd.available : Int) = ((sampleProd.tail : Int) - sampleProd.head) % 2 ^ 32)
    ∧ ((sampleCons.available : Int) = ((sampleCons.tail : Int) - sampleCons.head) % 2 ^ 32)
    ∧ sampleProdEq.available = 0
    ∧ sampleConsEq.available = 0
    ∧ (∀ casOk, sampleConsEq.reserve casOk = some (none, sampleConsEq)) := by
  obtain ⟨w1, w2, -, -, -⟩ :=
    available_is_wrapping_difference sampleProd sampleCons
      (by decide) (by decide) (by decide) (by decide)
  obtain ⟨-, -, w3, w4, w5⟩ :=
    available_is_wrapping_difference sampleProdEq sampleConsEq
      (by decide) (by decide) (by decide) (by decide)
  exact ⟨w1, w2, w3 rfl, w4 rfl, w5 rfl rfl⟩

/-! ## C9: empty reports "not at full occupancy" -/

/-- C9: for every state of the shared counters, empty() on both the producer
and the consumer returns true exactly when available() is strictly below the
entries length — it reports that the ring is not at full occupancy (at full
occupancy it returns false), not that the ring holds zero items. -/
theorem empty_means_not_full {T : Type} (sp : RingBufferProducer T)
    (sc : RingBufferConsumer T) :
    (sp.empty = true ↔ sp.available < sp.entries.length)
    ∧ (sp.available = sp.entries.length → sp.empty = false)
    ∧ (sc.empty = true ↔ sc.available < sc.entries.length)
    ∧ (sc.available = sc.entries.length → sc.empty = false) := by
  refine ⟨?_, ?_, ?_, ?_⟩
  · simp [RingBufferProducer.empty]
  · intro h; simp [RingBufferProducer.empty, h]
  · simp [RingBufferConsumer.empty]
  · intro h; simp [RingBufferConsumer.empty, h]

/-! ## C10: shadow counters track outstanding reservations -/

theorem prodReach_inv {T : Type} {s0 s : RingBufferProducer T} {out : List Nat}
    (h0 : s0.uncommitted_tail = s0.tail) (h1 : s0.tail < U32) (h2 : s0.head < U32)
    (h3 : s0.entries.length < U32)
    (h : ProdReach s0 s out) :
    s.head = s0.head ∧ s.entries = s0.entries
    ∧ s.tail < U32 ∧ s.uncommitted_tail < U32
    ∧ wsub s.uncommitted_tail s.tail ≤ wsub s.uncommitted_tail s.head
    ∧ out = (List.range (wsub s.uncommitted_tail s.tail)).map
        (fun k => (s.tail + k) % U32) := by
  have hU : U32 = 4294967296 := rfl
  induction h with
  | init =>
    refine ⟨rfl, rfl, h1, by rw [h0]; exact h1, ?_, ?_⟩
    · rw [h0, wsub_self _ h1]
      exact Nat.zero_le _
    · rw [h0, wsub_self _ h1]
      rfl
  | reserveOk hR hr ih =>
    rename_i s outp casOk e s1
    obtain ⟨hhd, hen, htl, hut, hle, hout⟩ := ih
    obtain ⟨hroom, hidx, hs1⟩ := prod_reserve_some_inv hr
    subst hs1
    have hlenU : s.entries.length < U32 := by rw [hen]; exact h3
    have hheadU : s.head < U32 := by rw [hhd]; exact h2
    have hw1 : wsub ((s.uncommitted_tail + 1) % U32) s.tail
        = wsub s.uncommitted_tail s.tail + 1 :=
      wsub_succ_left _ _ htl (by omega)
    have hw2 : wsub ((s.uncommitted_tail + 1) % U32) s.head
        = wsub s.uncommitted_tail s.head + 1 :=
      wsub_succ_left _ _ hheadU (by omega)
    refine ⟨hhd, hen, htl, Nat.mod_lt _ (by omega), ?_, ?_⟩
    · simp only
      rw [hw1, hw2]
      omega
    · simp only
      rw [hw1, List.range_succ, List.map_append, ← hout, hidx]
      simp only [List.map_cons, List.map_nil]
      rw [add_wsub _ _ hut htl]
  | reserveFail hR hr ih =>
    rename_i s outp casOk s1
    have hs : s1 = s := prod_reserve_none_inv hr
    subst hs
    exact ih
  | commitOk hR he hc ih =>
    rename_i s outp e s1
    obtain ⟨hhd, hen, htl, hut, hle, hout⟩ := ih
    obtain ⟨hidx, hs1⟩ := prod_commit_ok_inv hc
    subst hs1
    have hw0 : 1 ≤ wsub s.uncommitted_tail s.tail := by
      by_contra hcon
      have hz : wsub s.uncommitted_tail s.tail = 0 := by omega
      rw [hz] at hout
      simp only [List.range_zero, List.map_nil] at hout
      rw [hout] at he
      simp at he
    have hw3 : wsub s.uncommitted_tail ((s.tail + 1) % U32)
        = wsub s.uncommitted_tail s.tail - 1 :=
      wsub_succ_right _ _ htl hw0
    obtain ⟨n, hn⟩ : ∃ n, wsub s.uncommitted_tail s.tail = n + 1 :=
      ⟨wsub s.uncommitted_tail s.tail - 1, by omega⟩
    have hout2 : outp = s.tail
        :: (List.range n).map (fun k => (s.tail + (k + 1)) % U32) := by
      rw [hout, hn, List.range_succ_eq_map, List.map_cons, List.map_map]
      rw [Nat.add_zero, Nat.mod_eq_of_lt htl]
      rfl
    refine ⟨hhd, hen, Nat.mod_lt _ (by omega), hut, ?_, ?_⟩
    · simp only
      rw [hw3]
      omega
    · simp only
      rw [hw3, hn, hout2, hidx]
      rw [List.erase_cons_head]
      simp only [Nat.add_sub_cancel]
      refine List.map_congr_left fun k _ => ?_
      rw [mod_add_rotate]
  | commitFail hR he hc ih =>
    rename_i s outp e s1 err
    have hs : s1 = s := prod_commit_err_inv hc
    subst hs
    exact ih

theorem consReach_inv {T : Type} {c0 c : RingBufferConsumer T} {outc : List Nat}
    (h0 : c0.uncommitted_head = c0.head) (h1 : c0.head < U32) (h2 : c0.tail < U32)
    (h : ConsReach c0 c outc) :
    c.tail = c0.tail ∧ c.entries = c0.entries
    ∧ c.head < U32 ∧ c.uncommitted_head < U32
    ∧ wsub c.uncommitted_head c.head ≤ wsub c.tail c.head
    ∧ outc = (List.range (wsub c.uncommitted_head c.head)).map
        (fun k => (c.head + k) % U32) := by
  have hU : U32 = 4294967296 := rfl
  induction h with
  | init =>
    refine ⟨rfl, rfl, h1, by rw [h0]; exact h1, ?_, ?_⟩
    · rw [h0, wsub_self _ h1]
      exact Nat.zero_le _
    · rw [h0, wsub_self _ h1]
      rfl
  | reserveOk hR hr ih =>
    rename_i c outp casOk e c1
    obtain ⟨htl, hen, hhd, huh, hle, hout⟩ := ih
    obtain ⟨hne, hidx, hc1⟩ := cons_reserve_some_inv hr
    subst hc1
    have htailU : c.tail < U32 := by rw [htl]; exact h2
    have hwt : wsub c.tail c.head < U32 := wsub_lt _ _
    have hstrict : wsub c.uncommitted_head c.head < wsub c.tail c.head := by
      rcases Nat.lt_or_ge (wsub c.uncommitted_head c.head) (wsub c.tail c.head) with hlt | hge
      · exact hlt
      · exact absurd (wsub_inj c.uncommitted_head c.tail c.head huh htailU (by omega)) hne
    have hw1 : wsub ((c.uncommitted_head + 1) % U32) c.head
        = wsub c.uncommitted_head c.head + 1 :=
      wsub_succ_left _ _ hhd (by omega)
    refine ⟨htl, hen, hhd, Nat.mod_lt _ (by omega), ?_, ?_⟩
    · simp only
      rw [hw1]
      omega
    · simp only
      rw [hw1, List.range_succ, List.map_append, ← hout, hidx]
      simp only [List.map_cons, List.map_nil]
      rw [add_wsub _ _ huh hhd]
  | reserveFail hR hr ih =>
    rename_i c outp casOk c1
    have hs : c1 = c := cons_reserve_none_inv hr
    subst hs
    exact ih
  | commitOk hR he hc ih =>
    rename_i c outp e c1
    obtain ⟨htl, hen, hhd, huh, hle, hout⟩ := ih
    obtain ⟨hidx, hc1⟩ := cons_commit_ok_inv hc
    subst hc1
    have hw0 : 1 ≤ wsub c.uncommitted_head c.head := by
      by_contra hcon
      have hz : wsub c.uncommitted_head c.head = 0 := by omega
      rw [hz] at hout
      simp only [List.range_zero, List.map_nil] at hout
      rw [hout] at he
      simp at he
    have hw3 : wsub c.uncommitted_head ((c.head + 1) % U32)
        = wsub c.uncommitted_head c.head - 1 :=
      wsub_succ_right _ _ hhd hw0
    have hw4 : wsub c.tail ((c.head + 1) % U32) = wsub c.tail c.head - 1 :=
      wsub_succ_right _ _ hhd (by omega)
    obtain ⟨n, hn⟩ : ∃ n, wsub c.uncommitted_head c.head = n + 1 :=
      ⟨wsub c.uncommitted_head c.head - 1, by omega⟩
    have hout2 : outp = c.head
        :: (List.range n).map (fun k => (c.head + (k + 1)) % U32) := by
      rw [hout, hn, List.range_succ_eq_map, List.map_cons, List.map_map]
      rw [Nat.add_zero, Nat.mod_eq_of_lt hhd]
      rfl
    refine ⟨htl, hen, Nat.mod_lt _ (by omega), huh, ?_, ?_⟩
    · simp only
      rw [hw3, hw4]
      omega
    · simp only
      rw [hw3, hn, hout2, hidx]
      rw [List.erase_cons_head]
      simp only [Nat.add_sub_cancel]
      refine List.map_congr_left fun k _ => ?_
      rw [mod_add_rotate]
  | commitFail hR he hc ih =>
    rename_i c outp e c1 err
    have hs : c1 = c := cons_commit_err_inv hc
    subst hs
    exact ih

/-- C10: for a single producer (respectively consumer) instance, after any
sequence of reserve and commit operations through that instance starting
from a constructed state (shadow counter initialised from the counter it
shadows; counters and entries length in u32 range), the wrapping difference
between the private shadow counter (uncommitted_tail / uncommitted_head) and
the externally visible counter it shadows equals the number of outstanding
(reserved but uncommitted) reservations; and the shadow counter advances by
exactly one (mod 2^32) per successful reservation. -/
theorem shadow_counter_invariant {T : Type}
    (s0 s : RingBufferProducer T) (out : List Nat)
    (c0 c : RingBufferConsumer T) (outc : List Nat)
    (h0p : s0.uncommitted_tail = s0.tail) (h1p : s0.tail < U32)
    (h2p : s0.head < U32) (h3p : s0.entries.length < U32)
    (hp : ProdReach s0 s out)
    (h0c : c0.uncommitted_head = c0.head) (h1c : c0.head < U32) (h2c : c0.tail < U32)
    (hc : ConsReach c0 c outc) :
    wsub s.uncommitted_tail s.tail = out.length
    ∧ wsub c.uncommitted_head c.head = outc.length
    ∧ (∀ (casOk : Bool) (e : ReservedEntry T) (s1 : RingBufferProducer T),
        s.reserve casOk = some (some e, s1) →
          s1.uncommitted_tail = (s.uncommitted_tail + 1) % U32)
    ∧ (∀ (casOk : Bool) (e : ReservedEntry T) (c1 : RingBufferConsumer T),
        c.reserve casOk = some (some e, c1) →
          c1.uncommitted_head = (c.uncommitted_head + 1) % U32) := by
  obtain ⟨-, -, -, -, -, houtp⟩ := prodReach_inv h0p h1p h2p h3p hp
  obtain ⟨-, -, -, -, -, houtc⟩ := consReach_inv h0c h1c h2c hc
  refine ⟨?_, ?_, ?_, ?_⟩
  · rw [houtp]
    simp
  · rw [houtc]
    simp
  · intro casOk e s1 hr
    obtain ⟨-, -, hs1⟩ := prod_reserve_some_inv hr
    rw [hs1]
  · intro casOk e c1 hr
    obtain ⟨-, -, hc1⟩ := cons_reserve_some_inv hr
    rw [hc1]

/-- Witness for C10: one successful reservation from the sample producer
(all counters 5) and the sample consumer (head 5, tail 7) leaves one
outstanding index, and the shadow counters sit exactly one ahead of the
counters they shadow. -/
theorem shadow_counter_invariant_witness :
    wsub (⟨5, 5, 6, [10, 20], 1, 0⟩ : RingBufferProducer Nat).uncommitted_tail
        (⟨5, 5, 6, [10, 20], 1, 0⟩ : RingBufferProducer Nat).tail = [(5 : Nat)].length
    ∧ wsub (⟨5, 7, 6, [10, 20], 1, 0⟩ : RingBufferConsumer Nat).uncommitted_head
        (⟨5, 7, 6, [10, 20], 1, 0⟩ : RingBufferConsumer Nat).head = [(5 : Nat)].length
    ∧ (∀ (casOk : Bool) (e : ReservedEntry Nat) (s1 : RingBufferProducer Nat),
        (⟨5, 5, 6, [10, 20], 1, 0⟩ : RingBufferProducer Nat).reserve casOk
            = some (some e, s1) →
          s1.uncommitted_tail = ((6 : Nat) + 1) % U32)
    ∧ (∀ (casOk : Bool) (e : ReservedEntry Nat) (c1 : RingBufferConsumer Nat),
        (⟨5, 7, 6, [10, 20], 1, 0⟩ : RingBufferConsumer Nat).reserve casOk
            = some (some e, c1) →
          c1.uncommitted_head = ((6 : Nat) + 1) % U32) :=
  shadow_counter_invariant sampleProdEq ⟨5, 5, 6, [10, 20], 1, 0⟩ ([] ++ [5])
    sampleCons ⟨5, 7, 6, [10, 20], 1, 0⟩ ([] ++ [5])
    rfl (by decide) (by decide) (by decide)
    (@ProdReach.reserveOk Nat sampleProdEq sampleProdEq [] true ⟨5, 20⟩
      ⟨5, 5, 6, [10, 20], 1, 0⟩ ProdReach.init (by decide))
    rfl (by decide) (by decide)
    (@ConsReach.reserveOk Nat sampleCons sampleCons [] true ⟨5, 20⟩
      ⟨5, 7, 6, [10, 20], 1, 0⟩ ConsReach.init (by decide))

end Fern
